import Mathlib

/-!
Shallow embedding of the AWS resource-discovery engine (`Discovery.py`) and
proofs of its specified properties.  Python strings are modelled as Lean
`String`s, untyped response values as a `JValue` tree, Python dicts as
association lists with insert-or-overwrite semantics, exceptions as explicit
outcome types, and the thread pool's nondeterministic completion order as an
arbitrary permutation of the service list.
-/

namespace CloudDiscovery

/-- An untyped value appearing in an API response: a scalar (string or
number), a sequence, or a nested mapping.  Mirrors the schema-less Python
values handed back by a client call. -/
inductive JValue where
  | str (s : String)
  | num (n : Int)
  | bool (b : Bool)
  | list (xs : List JValue)
  | obj (fields : List (String × JValue))

/-- ASCII lowercase of a string, modelling Python's `str.lower()` on the
ASCII operation and field names the program manipulates. -/
def lowerStr (s : String) : String :=
  String.mk (s.data.map Char.toLower)

/-- `strStartsWith s p` models Python's `s.startswith(p)`. -/
def strStartsWith (s p : String) : Bool :=
  p.data.isPrefixOf s.data

/-- `strEndsWith s p` models Python's `s.endswith(p)`. -/
def strEndsWith (s p : String) : Bool :=
  p.data.isSuffixOf s.data

/-- `containsSub s p` models Python's substring test `p in s`. -/
def containsSub (s p : String) : Bool :=
  (List.range (s.data.length + 1)).any (fun i => p.data.isPrefixOf (s.data.drop i))

/-- The naming heuristic of `get_list_operations` (Discovery.py lines 54-60):
a lowercased operation name qualifies when it starts with "list" or
"describe", or starts with "get" and contains "list" or "all". -/
def is_list_operation (operationName : String) : Bool :=
  let op_name := lowerStr operationName
  strStartsWith op_name "list" || strStartsWith op_name "describe" ||
    (strStartsWith op_name "get" && (containsSub op_name "list" || containsSub op_name "all"))

/-- The Operation Classifier, `get_list_operations` (Discovery.py lines
49-63): keeps exactly the operation names matching the naming heuristic.
The denylist is NOT consulted here; it is applied later by the Service
Scanner. -/
def get_list_operations (operation_names : List String) : List String :=
  operation_names.filter is_list_operation

/-- The hard denylist of operations skipped inside the scan loop
(Discovery.py lines 77-78). -/
def operationDenylist : List String :=
  ["list_command_invocations", "list_documents", "list_resource_compliance_summaries",
   "list_tags_for_resource", "list_buckets", "list_multipart_uploads"]

/-- `value` is a non-empty sequence: Python's
`isinstance(value, list) and len(value) > 0`. -/
def is_nonempty_list_value : JValue → Bool
  | .list xs => !xs.isEmpty
  | _ => false

/-- The five field-name suffixes of the extractor (Discovery.py line 89). -/
def resource_suffixes : List String :=
  ["list", "ids", "arns", "names", "summaries"]

/-- Python's `key.lower().endswith(('list', 'ids', 'arns', 'names', 'summaries'))`. -/
def key_matches_suffix (key : String) : Bool :=
  resource_suffixes.any (fun suf => strEndsWith (lowerStr key) suf)

/-- The Response Resource Extractor (Discovery.py lines 85-90): keep a
top-level field when its value is a non-empty sequence, or its lowercased
name ends with one of the five resource suffixes. -/
def filter_response (response : List (String × JValue)) : List (String × JValue) :=
  response.filter (fun kv => is_nonempty_list_value kv.2 || key_matches_suffix kv.1)

/-- A mapping from top-level response field name to extracted value: one
`ResourceBag` per (service, region, operation) that yielded matching fields. -/
abbrev ResourceBag := List (String × JValue)

/-- A mapping from operation identifier to `ResourceBag`, for one
(service, region) pair. -/
abbrev ServiceScanResult := List (String × ResourceBag)

/-- Outcome of one zero-argument operation invocation.  `expectedFailure`
stands for the exception classes caught silently at Discovery.py lines 96-100
(`ClientError`, `ParamValidationError`, `OperationNotPageableError`);
`unexpectedFailure` for any other exception, carrying its message. -/
inductive InvokeOutcome where
  | success (response : List (String × JValue))
  | expectedFailure
  | unexpectedFailure (msg : String)

/-- A live service client bound to one region: its callable operation names
and the (deterministic, mocked) outcome of invoking each operation with no
arguments. -/
structure Client where
  operationNames : List String
  invoke : String → InvokeOutcome

/-- Insert-or-overwrite on an association list, the model of Python dict
assignment `d[k] = v`: an existing key keeps its position and gets the new
value, a new key is appended. -/
def setKey {α : Type} : List (String × α) → String → α → List (String × α)
  | [], k, v => [(k, v)]
  | p :: rest, k, v => if p.1 = k then (k, v) :: rest else p :: setKey rest k v

/-- The keys of an association list. -/
def keysOf {α : Type} (m : List (String × α)) : List String :=
  m.map Prod.fst

/-- Accumulated observable state of one Service Scanner run: the `resources`
dict and the diagnostics printed for unexpected errors. -/
structure ScanState where
  resources : ServiceScanResult
  diagnostics : List String

/-- One iteration of the scan loop (Discovery.py lines 74-103): skip
denylisted operations; on success keep the non-empty filtered response; on an
expected failure do nothing; on an unexpected failure record a diagnostic. -/
def scanOperation (client : Client) (acc : ScanState) (operation : String) : ScanState :=
  if operation ∈ operationDenylist then acc
  else
    match client.invoke operation with
    | .success response =>
        if (filter_response response).isEmpty then acc
        else { acc with resources := setKey acc.resources operation (filter_response response) }
    | .expectedFailure => acc
    | .unexpectedFailure msg =>
        { acc with diagnostics := acc.diagnostics ++ [msg] }

/-- The Service Scanner, `discover_resources_for_service` (Discovery.py lines
65-108).  Client construction is modelled by an `Except`: a construction
failure yields empty resources plus a diagnostic; otherwise the classified
operations are scanned sequentially. -/
def discover_resources_for_service (service_name region : String)
    (clientResult : Except String Client) : String × String × ScanState :=
  match clientResult with
  | .error e =>
      (service_name, region,
        ⟨[], ["Error initializing " ++ service_name ++ " in " ++ region ++ ": " ++ e]⟩)
  | .ok client =>
      let list_operations := get_list_operations client.operationNames
      (service_name, region, list_operations.foldl (scanOperation client) ⟨[], []⟩)

/-- One record of the tag index: a resource ARN and its tags
(`ResourceTagMappingList` entry). -/
structure TaggedRecord where
  resourceARN : String
  tags : List (String × String)
  deriving DecidableEq

/-- Splitting a character list on ':' — the helper behind `splitColon`. -/
def splitColonAux : List Char → List Char → List String
  | [], acc => [String.mk acc.reverse]
  | c :: rest, acc =>
      if c = ':' then String.mk acc.reverse :: splitColonAux rest []
      else splitColonAux rest (c :: acc)

/-- Python's `arn.split(':')`. -/
def splitColon (s : String) : List String :=
  splitColonAux s.data []

/-- The service segment of an ARN, `arn.split(':')[2]` (defaulting when the
index is out of range; the out-of-range case is handled separately, since in
Python it raises). -/
def serviceSegment (arn : String) : String :=
  (splitColon arn).getD 2 ""

/-- One step of the by-service grouping loop (Discovery.py lines 122-128):
append the ARN to its service's group, creating the group at the end on first
sight — Python dict-of-lists semantics. -/
def insertGrouped : List (String × List String) → String → String → List (String × List String)
  | [], service, arn => [(service, [arn])]
  | p :: rest, service, arn =>
      if p.1 = service then (p.1, p.2 ++ [arn]) :: rest
      else p :: insertGrouped rest service arn

/-- The by-service grouping of the Tag-Index Scanner, used for the progress
report. -/
def group_by_service (resources : List TaggedRecord) : List (String × List String) :=
  resources.foldl (fun acc r => insertGrouped acc (serviceSegment r.resourceARN) r.resourceARN) []

/-- Lookup of one service's group in the grouping. -/
def findGroup (s : String) (g : List (String × List String)) : Option (List String) :=
  (g.find? (fun p => p.1 == s)).map Prod.snd

/-- The Tag-Index Scanner, `get_tagged_resources` (Discovery.py lines
110-137).  The paginated call is modelled by an `Except` carrying the page
list; any failure — including the `IndexError` raised by
`arn.split(':')[2]` when an ARN has fewer than three colon-delimited
fields — is caught by the function's single handler and yields `[]`. -/
def get_tagged_resources (pagesResult : Except String (List (List TaggedRecord))) :
    List TaggedRecord :=
  match pagesResult with
  | .error _ => []
  | .ok pages =>
      if pages.flatten.all (fun r => 3 ≤ (splitColon r.resourceARN).length) then pages.flatten
      else []

/-- One region's entry of the final snapshot (Discovery.py lines 219-222). -/
structure RegionResult where
  tagged_resources : List String
  all_resources : List (String × ServiceScanResult)

/-- The mocked external world: a client factory and the tag-index pages per
region.  Deterministic by construction. -/
structure Environment where
  clientFor : String → String → Except String Client
  tagPages : String → Except String (List (List TaggedRecord))

/-- Collection of the per-service futures' results for one region
(Discovery.py lines 206-216): services are consumed in the worker pool's
completion order; an empty scan result is dropped, a non-empty one is stored
under its service name. -/
def scanRegionServices (env : Environment) (region : String)
    (completionOrder : List String) : List (String × ServiceScanResult) :=
  completionOrder.foldl
    (fun acc service =>
      if (discover_resources_for_service service region (env.clientFor service region)).2.2.resources.isEmpty
      then acc
      else
        setKey acc (discover_resources_for_service service region (env.clientFor service region)).1
          (discover_resources_for_service service region (env.clientFor service region)).2.2.resources)
    []

/-- Assembly of one region's result (Discovery.py lines 199-222): the tag
scan runs first, then the service fan-out. -/
def buildRegionResult (env : Environment) (region : String)
    (completionOrder : List String) : RegionResult :=
  { tagged_resources := (get_tagged_resources (env.tagPages region)).map (·.resourceARN),
    all_resources := scanRegionServices env region completionOrder }

/-- The root artifact written at the end of `main` (Discovery.py lines
186-222). -/
structure InventorySnapshot where
  timestamp : String
  regions_scanned : List String
  services_scanned : List String
  resources_by_region : List (String × RegionResult)

/-- The Discovery Coordinator (`main`, Discovery.py lines 195-222): regions
are processed sequentially in list order, each region's entry stored by dict
assignment; `orders` gives, per region, the completion order in which the
worker pool delivers the service results (any permutation of the service
list, the only observable trace of the pool size). -/
def runDiscovery (ts : String) (regions services : List String) (env : Environment)
    (orders : String → List String) : InventorySnapshot :=
  { timestamp := ts,
    regions_scanned := regions,
    services_scanned := services,
    resources_by_region :=
      regions.foldl (fun m region => setKey m region (buildRegionResult env region (orders region))) [] }

/-- A demo client used to instantiate theorems at concrete inputs:
one listing operation returning a page with one resource list and a
pagination token, one non-listing operation. -/
def demoClient : Client :=
  { operationNames := ["ListWidgets", "CreateWidget"],
    invoke := fun op =>
      if op = "ListWidgets" then
        .success [("Widgets", .list [.str "w1"]), ("NextToken", .str "x")]
      else .expectedFailure }

/-- The resource bag the extractor produces from `demoClient`'s response. -/
def demoBag : ResourceBag := [("Widgets", .list [.str "w1"])]

/-- A demo client whose single listing operation fails unexpectedly. -/
def errClient : Client :=
  { operationNames := ["ListThings"],
    invoke := fun _ => .unexpectedFailure "err msg" }

/-- A demo environment: every service resolves to `demoClient`, the tag
index is unavailable. -/
def demoEnv : Environment :=
  { clientFor := fun _ _ => .ok demoClient,
    tagPages := fun _ => .error "no tags" }

/-- The region result `demoEnv` yields for any region containing service
list `["svc"]`. -/
def demoRegionResult : RegionResult :=
  { tagged_resources := [],
    all_resources := [("svc", [("ListWidgets", demoBag)])] }

/-- The ARNs, in order, of the records of `rs` whose service segment is
`s` — the reference value for the by-service grouping. -/
def arnsFor (s : String) (rs : List TaggedRecord) : List String :=
  (rs.filter (fun r => serviceSegment r.resourceARN == s)).map TaggedRecord.resourceARN

/-- Two snapshot entries agree up to non-semantic ordering: same region
key, same tagged-resource sequence, and `all_resources` equal as multisets
of (service, result) pairs. -/
def regionEntryRel (p q : String × RegionResult) : Prop :=
  p.1 = q.1 ∧ p.2.tagged_resources = q.2.tagged_resources ∧
    p.2.all_resources.Perm q.2.all_resources

/-- A tagged record with a well-formed ARN, for concrete instantiations. -/
def demoRec : TaggedRecord :=
  { resourceARN := "arn:aws:s3:::b", tags := [] }

/-- A tagged record whose identifier has fewer than three colon-delimited
fields. -/
def demoShortRec : TaggedRecord :=
  { resourceARN := "x", tags := [] }

/-! ## Lemmas about the classifier and the extractor -/

theorem is_nonempty_list_value_iff (v : JValue) :
    is_nonempty_list_value v = true ↔ ∃ xs, v = JValue.list xs ∧ xs ≠ [] := by
  cases v <;> simp [is_nonempty_list_value]

/-- Claim C1 (counterexample): the Operation Classifier does not exclude
denylisted identifiers — on the input set `["list_buckets"]` its output
contains `"list_buckets"`, which is on the denylist. -/
theorem classifier_keeps_denylisted :
    "list_buckets" ∈ operationDenylist ∧
    "list_buckets" ∈ get_list_operations ["list_buckets"] := by
  exact ⟨by decide, by decide⟩

/-- Claim C1 (amended): for every operation-identifier set, the Operation
Classifier's output is a subset of the input set and is idempotent across
repeated calls; denylisted identifiers, however, are not removed by the
classifier (they are skipped later, by the Service Scanner, before
invocation). -/
theorem classifier_subset_idempotent (operation_names : List String) :
    (∀ op ∈ get_list_operations operation_names, op ∈ operation_names) ∧
    get_list_operations (get_list_operations operation_names) =
      get_list_operations operation_names := by
  constructor
  · exact fun op h => List.mem_of_mem_filter h
  · simp [get_list_operations, List.filter_filter]

/-- Claim C3: an identifier is in the Operation Classifier's output iff it
is in the input set and its case-folded form starts with "list" or
"describe", or starts with "get" and contains "list" or "all" as a
substring. -/
theorem classifier_membership (operation_names : List String) (op : String) :
    op ∈ get_list_operations operation_names ↔
      op ∈ operation_names ∧
        (strStartsWith (lowerStr op) "list" = true ∨
         strStartsWith (lowerStr op) "describe" = true ∨
         (strStartsWith (lowerStr op) "get" = true ∧
           (containsSub (lowerStr op) "list" = true ∨
            containsSub (lowerStr op) "all" = true))) := by
  simp [get_list_operations, List.mem_filter, is_list_operation, Bool.or_eq_true,
    Bool.and_eq_true, or_assoc]

/-- Claim C2: the Extractor's output is a sub-mapping of the input
response, and a field is included iff its value is a non-empty sequence or
its case-folded name ends with one of the five resource suffixes (in which
case the value's shape is irrelevant). -/
theorem extractor_submapping_membership (response : List (String × JValue)) :
    List.Sublist (filter_response response) response ∧
    ∀ key value, (key, value) ∈ filter_response response ↔
      ((key, value) ∈ response ∧
        ((∃ xs, value = JValue.list xs ∧ xs ≠ []) ∨ key_matches_suffix key = true)) := by
  refine ⟨List.filter_sublist _, fun key value => ?_⟩
  simp [filter_response, List.mem_filter, Bool.or_eq_true, is_nonempty_list_value_iff]

/-! ## Lemmas about `setKey` (dict assignment) -/

theorem mem_setKey {α : Type} {m : List (String × α)} {k k' : String} {v v' : α}
    (h : (k', v') ∈ setKey m k v) : (k', v') ∈ m ∨ (k' = k ∧ v' = v) := by
  induction m with
  | nil =>
      simp only [setKey, List.mem_singleton, Prod.mk.injEq] at h
      exact Or.inr h
  | cons p rest ih =>
      by_cases hp : p.1 = k
      · rw [setKey, if_pos hp] at h
        rcases List.mem_cons.mp h with h1 | h1
        · simp only [Prod.mk.injEq] at h1
          exact Or.inr h1
        · exact Or.inl (List.mem_cons_of_mem _ h1)
      · rw [setKey, if_neg hp] at h
        rcases List.mem_cons.mp h with h1 | h1
        · exact Or.inl (h1 ▸ List.mem_cons_self _ _)
        · rcases ih h1 with h2 | h2
          · exact Or.inl (List.mem_cons_of_mem _ h2)
          · exact Or.inr h2

theorem keysOf_setKey {α : Type} (m : List (String × α)) (k : String) (v : α) :
    keysOf (setKey m k v) = if k ∈ keysOf m then keysOf m else keysOf m ++ [k] := by
  induction m with
  | nil => simp [setKey, keysOf]
  | cons p rest ih =>
      by_cases hp : p.1 = k
      · rw [setKey, if_pos hp]
        simp [keysOf, hp]
      · rw [setKey, if_neg hp]
        have h1 : keysOf (p :: setKey rest k v) = p.1 :: keysOf (setKey rest k v) := rfl
        have h2 : keysOf (p :: rest) = p.1 :: keysOf rest := rfl
        rw [h1, h2, ih]
        by_cases hm : k ∈ keysOf rest
        · rw [if_pos hm, if_pos (List.mem_cons_of_mem _ hm)]
        · have hnotin : k ∉ p.1 :: keysOf rest := by
            intro hmem
            rcases List.mem_cons.mp hmem with he | he
            · exact hp he.symm
            · exact hm he
          rw [if_neg hm, if_neg hnotin, List.cons_append]

theorem mem_keysOf_setKey {α : Type} (m : List (String × α)) (k k' : String) (v : α) :
    k' ∈ keysOf (setKey m k v) ↔ k' ∈ keysOf m ∨ k' = k := by
  rw [keysOf_setKey]
  by_cases hk : k ∈ keysOf m
  · rw [if_pos hk]
    constructor
    · exact Or.inl
    · rintro (h | rfl)
      · exact h
      · exact hk
  · rw [if_neg hk]
    simp [List.mem_append]

theorem nodup_keysOf_setKey {α : Type} {m : List (String × α)} (h : (keysOf m).Nodup)
    (k : String) (v : α) : (keysOf (setKey m k v)).Nodup := by
  rw [keysOf_setKey]
  by_cases hk : k ∈ keysOf m
  · rwa [if_pos hk]
  · rw [if_neg hk]
    simp [List.nodup_append, h, hk]

theorem setKey_eq_append {α : Type} {m : List (String × α)} {k : String}
    (h : k ∉ keysOf m) (v : α) : setKey m k v = m ++ [(k, v)] := by
  induction m with
  | nil => rfl
  | cons p rest ih =>
      simp only [keysOf, List.map_cons, List.mem_cons] at h
      push_neg at h
      rw [setKey, if_neg (fun he => h.1 he.symm), List.cons_append]
      exact congrArg _ (ih h.2)

theorem mem_foldl_setKey {α : Type} (f : String → α) (xs : List String)
    (acc : List (String × α)) {p : String × α}
    (h : p ∈ xs.foldl (fun m x => setKey m x (f x)) acc) :
    p ∈ acc ∨ ∃ x ∈ xs, p = (x, f x) := by
  induction xs generalizing acc with
  | nil => exact Or.inl h
  | cons x rest ih =>
      rw [List.foldl_cons] at h
      rcases ih _ h with h1 | h1
      · rcases mem_setKey (m := acc) h1 with h2 | h2
        · exact Or.inl h2
        · obtain ⟨a, b⟩ := p
          simp only at h2
          exact Or.inr ⟨x, List.mem_cons_self _ _, by rw [h2.1, h2.2]⟩
      · rcases h1 with ⟨y, hy, hp⟩
        exact Or.inr ⟨y, List.mem_cons_of_mem _ hy, hp⟩

theorem mem_keysOf_foldl_setKey {α : Type} (f : String → α) (xs : List String)
    (acc : List (String × α)) (k : String) :
    k ∈ keysOf (xs.foldl (fun m x => setKey m x (f x)) acc) ↔ k ∈ keysOf acc ∨ k ∈ xs := by
  induction xs generalizing acc with
  | nil => simp
  | cons x rest ih =>
      rw [List.foldl_cons, ih, mem_keysOf_setKey]
      simp [or_assoc, List.mem_cons]

theorem nodup_keysOf_foldl_setKey {α : Type} (f : String → α) (xs : List String)
    (acc : List (String × α)) (h : (keysOf acc).Nodup) :
    (keysOf (xs.foldl (fun m x => setKey m x (f x)) acc)).Nodup := by
  induction xs generalizing acc with
  | nil => exact h
  | cons x rest ih => exact ih _ (nodup_keysOf_setKey h x (f x))

/-! ## Lemmas about the Service Scanner -/

theorem mem_scan_resources {client : Client} {ops : List String} {acc : ScanState}
    {op : String} {bag : ResourceBag}
    (h : (op, bag) ∈ (ops.foldl (scanOperation client) acc).resources) :
    (op, bag) ∈ acc.resources ∨
      (op ∉ operationDenylist ∧ ∃ resp, client.invoke op = .success resp ∧
        bag = filter_response resp ∧ filter_response resp ≠ []) := by
  induction ops generalizing acc with
  | nil => exact Or.inl h
  | cons o rest ih =>
      rw [List.foldl_cons] at h
      rcases ih h with h1 | h1
      · by_cases hd : o ∈ operationDenylist
        · rw [scanOperation, if_pos hd] at h1
          exact Or.inl h1
        · rw [scanOperation, if_neg hd] at h1
          cases hc : client.invoke o with
          | success resp =>
              rw [hc] at h1
              by_cases he : (filter_response resp).isEmpty
              · simp only [he, if_pos] at h1
                exact Or.inl h1
              · simp only [he, if_neg, Bool.false_eq_true, not_false_iff, ite_false] at h1
                rcases mem_setKey h1 with h2 | h2
                · exact Or.inl h2
                · refine Or.inr ⟨h2.1 ▸ hd, resp, h2.1 ▸ hc, h2.2, ?_⟩
                  intro hnil
                  rw [hnil] at he
                  exact he rfl
          | expectedFailure =>
              rw [hc] at h1
              exact Or.inl h1
          | unexpectedFailure msg =>
              rw [hc] at h1
              exact Or.inl h1
      · exact Or.inr h1

theorem scan_diagnostics_eq (client : Client) (ops : List String) (acc : ScanState) :
    (ops.foldl (scanOperation client) acc).diagnostics =
      acc.diagnostics ++ ops.filterMap (fun op =>
        if op ∈ operationDenylist then none
        else match client.invoke op with
          | .unexpectedFailure msg => some msg
          | _ => none) := by
  induction ops generalizing acc with
  | nil => simp
  | cons o rest ih =>
      rw [List.foldl_cons, ih, List.filterMap_cons]
      by_cases hd : o ∈ operationDenylist
      · simp [scanOperation, hd]
      · cases hc : client.invoke o with
        | success resp =>
            by_cases he : (filter_response resp).isEmpty <;>
              simp [scanOperation, hd, hc, he]
        | expectedFailure => simp [scanOperation, hd, hc]
        | unexpectedFailure msg => simp [scanOperation, hd, hc, List.append_assoc]

theorem scan_skips_all (client : Client) (ops : List String) (acc : ScanState)
    (h : ∀ op ∈ ops, client.invoke op = .expectedFailure) :
    ops.foldl (scanOperation client) acc = acc := by
  induction ops generalizing acc with
  | nil => rfl
  | cons o rest ih =>
      rw [List.foldl_cons]
      have ho := h o (List.mem_cons_self o rest)
      have hstep : scanOperation client acc o = acc := by
        by_cases hd : o ∈ operationDenylist <;> simp [scanOperation, hd, ho]
      rw [hstep]
      exact ih _ (fun op hop => h op (List.mem_cons_of_mem _ hop))

/-- Claim C9: no denylisted operation identifier ever appears as a key of a
ServiceScanResult — the Service Scanner skips denylisted operations before
invoking them, for every client environment. -/
theorem scan_result_disjoint_denylist (service_name region : String)
    (clientResult : Except String Client) (op : String) (bag : ResourceBag)
    (h : (op, bag) ∈ (discover_resources_for_service service_name region clientResult).2.2.resources) :
    op ∉ operationDenylist := by
  cases clientResult with
  | error e => simp [discover_resources_for_service] at h
  | ok client =>
      simp only [discover_resources_for_service] at h
      rcases mem_scan_resources h with h1 | h1
      · simp at h1
      · exact h1.1

/-- Witness for C9: on the demo client, `ListWidgets` is a key of the scan
result, hence (by the theorem) it is not on the denylist. -/
theorem scan_result_disjoint_denylist_witness :
    ("ListWidgets", demoBag) ∈
      (discover_resources_for_service "svc" "r1" (.ok demoClient)).2.2.resources ∧
    "ListWidgets" ∉ operationDenylist := by
  have hm : ("ListWidgets", demoBag) ∈
      (discover_resources_for_service "svc" "r1" (.ok demoClient)).2.2.resources :=
    List.mem_singleton.mpr rfl
  exact ⟨hm, scan_result_disjoint_denylist "svc" "r1" (.ok demoClient) "ListWidgets" demoBag hm⟩

/-- Claim C6: against a client whose every classified operation invocation
fails with an expected-skip outcome, the Service Scanner produces an empty
result and emits zero diagnostics. -/
theorem scanner_all_expected_skip (service_name region : String) (client : Client)
    (h : ∀ op ∈ get_list_operations client.operationNames,
        client.invoke op = .expectedFailure) :
    (discover_resources_for_service service_name region (.ok client)).2.2.resources = [] ∧
    (discover_resources_for_service service_name region (.ok client)).2.2.diagnostics = [] := by
  have hfold := scan_skips_all client (get_list_operations client.operationNames) ⟨[], []⟩ h
  constructor <;> simp [discover_resources_for_service, hfold]

/-- Witness for C6: a client with one listing operation whose invocation
always yields the expected-skip outcome. -/
theorem scanner_all_expected_skip_witness :
    (discover_resources_for_service "ssm" "eu-west-1"
        (.ok ⟨["ListThings"], fun _ => .expectedFailure⟩)).2.2.resources = [] ∧
    (discover_resources_for_service "ssm" "eu-west-1"
        (.ok ⟨["ListThings"], fun _ => .expectedFailure⟩)).2.2.diagnostics = [] :=
  scanner_all_expected_skip "ssm" "eu-west-1" ⟨["ListThings"], fun _ => .expectedFailure⟩
    (fun _ _ => rfl)

/-- Claim C5: every failure is contained at the scope of the single call.
A client-construction failure yields zero findings plus a diagnostic; the
Tag-Index Scanner yields an empty sequence on total failure; an operation
appears in the scan result only if its invocation succeeded (so any failed
call contributes zero findings); and an unexpected invocation failure of a
classified, non-denylisted operation is reported as a diagnostic. -/
theorem failures_contained :
    (∀ service_name region e,
        (discover_resources_for_service service_name region (.error e)).2.2.resources = [] ∧
        (discover_resources_for_service service_name region (.error e)).2.2.diagnostics ≠ []) ∧
    (∀ e, get_tagged_resources (.error e) = []) ∧
    (∀ service_name region (client : Client) op bag,
        (op, bag) ∈ (discover_resources_for_service service_name region (.ok client)).2.2.resources →
        ∃ resp, client.invoke op = .success resp ∧ bag = filter_response resp) ∧
    (∀ service_name region (client : Client) op msg,
        op ∈ get_list_operations client.operationNames → op ∉ operationDenylist →
        client.invoke op = .unexpectedFailure msg →
        msg ∈ (discover_resources_for_service service_name region (.ok client)).2.2.diagnostics) := by
  refine ⟨fun s r e => ⟨rfl, by simp [discover_resources_for_service]⟩,
    fun e => rfl, fun s r client op bag h => ?_, fun s r client op msg hop hd hc => ?_⟩
  · simp only [discover_resources_for_service] at h
    rcases mem_scan_resources h with h1 | h1
    · simp at h1
    · exact ⟨h1.2.choose, h1.2.choose_spec.1, h1.2.choose_spec.2.1⟩
  · simp only [discover_resources_for_service]
    rw [scan_diagnostics_eq]
    simp only [List.nil_append]
    rw [List.mem_filterMap]
    exact ⟨op, hop, by simp [hd, hc]⟩

/-- Witness for C5: a failed client construction yields zero findings, a
failed tag-index call yields an empty sequence, and an unexpected operation
failure surfaces as a diagnostic. -/
theorem failures_contained_witness :
    (discover_resources_for_service "s3" "us-east-1" (.error "boom")).2.2.resources = [] ∧
    get_tagged_resources (.error "down") = [] ∧
    "err msg" ∈ (discover_resources_for_service "svc" "r1" (.ok errClient)).2.2.diagnostics :=
  ⟨(failures_contained.1 "s3" "us-east-1" "boom").1,
   failures_contained.2.1 "down",
   failures_contained.2.2.2 "svc" "r1" errClient "ListThings" "err msg"
     (by decide) (by decide) rfl⟩

/-! ## Lemmas about the Discovery Coordinator -/

theorem discover_fst (s r : String) (c : Except String Client) :
    (discover_resources_for_service s r c).1 = s := by
  cases c <;> rfl

theorem scanRegion_fold_values_ne_nil (env : Environment) (region : String) :
    ∀ (order : List String) (acc : List (String × ServiceScanResult)),
    (∀ q ∈ acc, q.2 ≠ ([] : ServiceScanResult)) →
    ∀ q ∈ order.foldl
        (fun acc service =>
          if (discover_resources_for_service service region (env.clientFor service region)).2.2.resources.isEmpty
          then acc
          else
            setKey acc (discover_resources_for_service service region (env.clientFor service region)).1
              (discover_resources_for_service service region (env.clientFor service region)).2.2.resources)
        acc,
      q.2 ≠ ([] : ServiceScanResult) := by
  intro order
  induction order with
  | nil => exact fun acc hacc => hacc
  | cons s rest ih =>
      intro acc hacc q hq
      rw [List.foldl_cons] at hq
      by_cases he : (discover_resources_for_service s region (env.clientFor s region)).2.2.resources.isEmpty
      · rw [if_pos he] at hq
        exact ih acc hacc q hq
      · rw [if_neg he] at hq
        refine ih _ (fun q' hq' => ?_) q hq
        obtain ⟨k', v'⟩ := q'
        rcases mem_setKey hq' with h1 | h1
        · exact hacc _ h1
        · intro hnil
          simp only at hnil
          rw [h1.2] at hnil
          rw [hnil] at he
          exact he rfl

theorem scanRegionServices_values_ne_nil (env : Environment) (region : String)
    (order : List String) :
    ∀ q ∈ scanRegionServices env region order, q.2 ≠ ([] : ServiceScanResult) :=
  scanRegion_fold_values_ne_nil env region order [] (by simp)

/-- Claim C4: in every assembled snapshot, a region's `all_resources`
mapping never contains a service mapped to an empty ServiceScanResult —
services with zero findings are dropped, not stored empty. -/
theorem region_results_drop_empty_services (ts : String) (regions services : List String)
    (env : Environment) (orders : String → List String) (p : String × RegionResult)
    (hp : p ∈ (runDiscovery ts regions services env orders).resources_by_region)
    (q : String × ServiceScanResult) (hq : q ∈ p.2.all_resources) :
    q.2 ≠ [] := by
  rcases mem_foldl_setKey (fun region => buildRegionResult env region (orders region))
      regions [] hp with h | ⟨r, _, hp2⟩
  · simp at h
  · subst hp2
    exact scanRegionServices_values_ne_nil env r (orders r) q hq

/-- Witness for C4: the demo environment stores service `svc` with a
non-empty scan result in region `r1`. -/
theorem region_results_drop_empty_services_witness :
    ("r1", demoRegionResult) ∈
      (runDiscovery "t" ["r1"] ["svc"] demoEnv (fun _ => ["svc"])).resources_by_region ∧
    ("svc", [("ListWidgets", demoBag)]) ∈ demoRegionResult.all_resources ∧
    ([("ListWidgets", demoBag)] : ServiceScanResult) ≠ [] := by
  have hp : ("r1", demoRegionResult) ∈
      (runDiscovery "t" ["r1"] ["svc"] demoEnv (fun _ => ["svc"])).resources_by_region :=
    List.mem_singleton.mpr rfl
  have hq : ("svc", [("ListWidgets", demoBag)]) ∈ demoRegionResult.all_resources :=
    List.mem_singleton.mpr rfl
  exact ⟨hp, hq,
    region_results_drop_empty_services "t" ["r1"] ["svc"] demoEnv (fun _ => ["svc"])
      ("r1", demoRegionResult) hp ("svc", [("ListWidgets", demoBag)]) hq⟩

/-- Claim C10: the snapshot's `resources_by_region` has exactly one entry
for every region of the scanned region list, regardless of whether the
region's tagged-resource sequence and `all_resources` mapping are empty. -/
theorem snapshot_regions_complete (ts : String) (regions services : List String)
    (env : Environment) (orders : String → List String) :
    (keysOf (runDiscovery ts regions services env orders).resources_by_region).Nodup ∧
    ∀ region, region ∈ keysOf (runDiscovery ts regions services env orders).resources_by_region ↔
      region ∈ regions := by
  constructor
  · exact nodup_keysOf_foldl_setKey (fun r => buildRegionResult env r (orders r)) regions []
      (by simp [keysOf])
  · intro region
    have h := mem_keysOf_foldl_setKey (fun r => buildRegionResult env r (orders r))
      regions [] region
    simpa [keysOf, runDiscovery] using h

theorem scanRegion_fold_eq_append (env : Environment) (region : String) :
    ∀ (order : List String) (acc : List (String × ServiceScanResult)),
    order.Nodup → (∀ s ∈ order, s ∉ keysOf acc) →
    order.foldl
        (fun acc service =>
          if (discover_resources_for_service service region (env.clientFor service region)).2.2.resources.isEmpty
          then acc
          else
            setKey acc (discover_resources_for_service service region (env.clientFor service region)).1
              (discover_resources_for_service service region (env.clientFor service region)).2.2.resources)
        acc =
      acc ++ order.filterMap (fun service =>
        if (discover_resources_for_service service region (env.clientFor service region)).2.2.resources.isEmpty
        then none
        else some (service, (discover_resources_for_service service region (env.clientFor service region)).2.2.resources)) := by
  intro order
  induction order with
  | nil => intro acc _ _; simp
  | cons s rest ih =>
      intro acc hnd hkeys
      rw [List.foldl_cons, List.filterMap_cons]
      by_cases he : (discover_resources_for_service s region (env.clientFor s region)).2.2.resources.isEmpty
      · rw [if_pos he, if_pos he]
        exact ih acc (List.Nodup.of_cons hnd)
          (fun t ht => hkeys t (List.mem_cons_of_mem _ ht))
      · rw [if_neg he, if_neg he, discover_fst,
            setKey_eq_append (hkeys s (List.mem_cons_self _ _)) _]
        rw [ih (acc ++ [(s, (discover_resources_for_service s region (env.clientFor s region)).2.2.resources)])
            (List.Nodup.of_cons hnd) ?_]
        · rw [List.append_assoc, List.singleton_append]
        · intro t ht hmem
          rw [keysOf, List.map_append] at hmem
          rcases List.mem_append.mp hmem with h1 | h1
          · exact hkeys t (List.mem_cons_of_mem _ ht) h1
          · simp only [List.map_cons, List.map_nil, List.mem_singleton] at h1
            rw [h1] at ht
            exact (List.nodup_cons.mp hnd).1 ht

theorem scanRegionServices_eq_filterMap (env : Environment) (region : String)
    (order : List String) (hnd : order.Nodup) :
    scanRegionServices env region order = order.filterMap (fun service =>
      if (discover_resources_for_service service region (env.clientFor service region)).2.2.resources.isEmpty
      then none
      else some (service, (discover_resources_for_service service region (env.clientFor service region)).2.2.resources)) := by
  rw [scanRegionServices, scanRegion_fold_eq_append env region order [] hnd (by simp [keysOf])]
  simp

theorem scanRegionServices_perm (env : Environment) (region : String)
    {order1 order2 : List String} (h12 : order1.Perm order2) (hnd : order1.Nodup) :
    (scanRegionServices env region order1).Perm (scanRegionServices env region order2) := by
  rw [scanRegionServices_eq_filterMap env region order1 hnd,
      scanRegionServices_eq_filterMap env region order2 (h12.nodup_iff.mp hnd)]
  exact h12.filterMap _

theorem forall₂_setKey {m1 m2 : List (String × RegionResult)}
    (h : List.Forall₂ regionEntryRel m1 m2) (k : String) {v1 v2 : RegionResult}
    (hv : v1.tagged_resources = v2.tagged_resources ∧ v1.all_resources.Perm v2.all_resources) :
    List.Forall₂ regionEntryRel (setKey m1 k v1) (setKey m2 k v2) := by
  induction h with
  | nil => exact List.Forall₂.cons ⟨rfl, hv⟩ List.Forall₂.nil
  | cons hpq htail ih =>
      rename_i p q l1 l2
      by_cases hp : p.1 = k
      · rw [setKey, if_pos hp, setKey, if_pos (by rw [← hpq.1]; exact hp)]
        exact List.Forall₂.cons ⟨rfl, hv⟩ htail
      · rw [setKey, if_neg hp, setKey, if_neg (by rw [← hpq.1]; exact hp)]
        exact List.Forall₂.cons hpq ih

theorem forall₂_foldl_setKey (f g : String → RegionResult)
    (hfg : ∀ r, (f r).tagged_resources = (g r).tagged_resources ∧
      (f r).all_resources.Perm (g r).all_resources)
    (regions : List String) :
    ∀ (acc1 acc2 : List (String × RegionResult)), List.Forall₂ regionEntryRel acc1 acc2 →
    List.Forall₂ regionEntryRel
      (regions.foldl (fun m r => setKey m r (f r)) acc1)
      (regions.foldl (fun m r => setKey m r (g r)) acc2) := by
  induction regions with
  | nil => exact fun _ _ h => h
  | cons r rest ih =>
      intro acc1 acc2 h
      exact ih _ _ (forall₂_setKey h r (hfg r))

/-- Claim C7: against a fixed deterministic environment, the Discovery
Coordinator produces the same InventorySnapshot content for any two worker
pool completion orders (in particular, for pool size 1 and pool size 10):
same metadata, same region entries with the same tagged sequences, and the
same service-to-result mappings up to non-semantic entry order. -/
theorem coordinator_order_independent (ts : String) (regions services : List String)
    (env : Environment) (orders1 orders2 : String → List String)
    (hnodup : services.Nodup)
    (h1 : ∀ r, (orders1 r).Perm services) (h2 : ∀ r, (orders2 r).Perm services) :
    (runDiscovery ts regions services env orders1).timestamp =
      (runDiscovery ts regions services env orders2).timestamp ∧
    (runDiscovery ts regions services env orders1).regions_scanned =
      (runDiscovery ts regions services env orders2).regions_scanned ∧
    (runDiscovery ts regions services env orders1).services_scanned =
      (runDiscovery ts regions services env orders2).services_scanned ∧
    List.Forall₂ regionEntryRel
      (runDiscovery ts regions services env orders1).resources_by_region
      (runDiscovery ts regions services env orders2).resources_by_region := by
  refine ⟨rfl, rfl, rfl, ?_⟩
  have hval : ∀ r, (buildRegionResult env r (orders1 r)).tagged_resources =
      (buildRegionResult env r (orders2 r)).tagged_resources ∧
      (buildRegionResult env r (orders1 r)).all_resources.Perm
        (buildRegionResult env r (orders2 r)).all_resources := by
    intro r
    refine ⟨rfl, ?_⟩
    have hn1 : (orders1 r).Nodup := (h1 r).nodup_iff.mpr hnodup
    exact scanRegionServices_perm env r ((h1 r).trans (h2 r).symm) hn1
  exact forall₂_foldl_setKey _ _ hval regions [] [] List.Forall₂.nil

/-- Witness for C7: one region, two services, delivered in the two possible
completion orders. -/
theorem coordinator_order_independent_witness :
    (["a", "b"] : List String).Nodup ∧
    List.Forall₂ regionEntryRel
      (runDiscovery "t" ["r1"] ["a", "b"] demoEnv (fun _ => ["a", "b"])).resources_by_region
      (runDiscovery "t" ["r1"] ["a", "b"] demoEnv (fun _ => ["b", "a"])).resources_by_region :=
  ⟨by decide,
   (coordinator_order_independent "t" ["r1"] ["a", "b"] demoEnv
      (fun _ => ["a", "b"]) (fun _ => ["b", "a"]) (by decide)
      (fun _ => List.Perm.refl _) (fun _ => List.Perm.swap "a" "b" [])).2.2.2⟩

/-! ## Lemmas about the Tag-Index Scanner -/

theorem findGroup_cons (x : String × List String) (l : List (String × List String))
    (s : String) :
    findGroup s (x :: l) = if x.1 = s then some x.2 else findGroup s l := by
  rw [findGroup, List.find?_cons]
  by_cases h : x.1 = s
  · rw [if_pos h]
    have hb : (x.1 == s) = true := beq_iff_eq.mpr h
    rw [hb]
    rfl
  · rw [if_neg h, beq_false_of_ne h]
    rfl

theorem findGroup_insertGrouped (g : List (String × List String)) (t a s : String) :
    findGroup s (insertGrouped g t a) =
      if s = t then some (((findGroup s g).getD []) ++ [a]) else findGroup s g := by
  induction g with
  | nil =>
      show findGroup s [(t, [a])] = _
      rw [findGroup_cons]
      by_cases hs : s = t
      · rw [if_pos hs.symm, if_pos hs]
        rfl
      · rw [if_neg (fun h => hs h.symm), if_neg hs]
  | cons p rest ih =>
      simp only [insertGrouped]
      by_cases hp : p.1 = t
      · rw [if_pos hp, findGroup_cons]
        by_cases hs : s = t
        · have hps : p.1 = s := by rw [hp, hs]
          rw [if_pos hps, if_pos hs, findGroup_cons, if_pos hps]
          rfl
        · have hps : ¬p.1 = s := fun h => hs (by rw [← h, hp])
          rw [if_neg hps, if_neg hs, findGroup_cons, if_neg hps]
      · rw [if_neg hp, findGroup_cons]
        by_cases hps : p.1 = s
        · have hs : ¬s = t := fun h => hp (by rw [hps, h])
          rw [if_pos hps, if_neg hs, findGroup_cons, if_pos hps]
        · rw [if_neg hps, ih, findGroup_cons, if_neg hps]

theorem findGroup_group_fold (rs : List TaggedRecord) :
    ∀ (g : List (String × List String)) (s : String),
    findGroup s (rs.foldl (fun acc r => insertGrouped acc (serviceSegment r.resourceARN) r.resourceARN) g) =
      match findGroup s g with
      | some l => some (l ++ arnsFor s rs)
      | none => if arnsFor s rs = [] then none else some (arnsFor s rs) := by
  induction rs with
  | nil =>
      intro g s
      cases h : findGroup s g <;> simp [arnsFor, h]
  | cons r rest ih =>
      intro g s
      rw [List.foldl_cons, ih, findGroup_insertGrouped]
      by_cases hs : s = serviceSegment r.resourceARN
      · rw [if_pos hs]
        have ha : arnsFor s (r :: rest) = r.resourceARN :: arnsFor s rest := by
          have hb : (serviceSegment r.resourceARN == s) = true := beq_iff_eq.mpr hs.symm
          simp [arnsFor, List.filter_cons, hb]
        rw [ha]
        cases h : findGroup s g with
        | some l => simp [h, List.append_assoc]
        | none => simp [h]
      · rw [if_neg hs]
        have ha : arnsFor s (r :: rest) = arnsFor s rest := by
          have : (serviceSegment r.resourceARN == s) = false :=
            beq_false_of_ne (fun h => hs h.symm)
          simp [arnsFor, List.filter_cons, this]
        rw [ha]

/-- Claim C8 (counterexample): on a page whose single record's identifier
`"x"` has fewer than three colon-delimited fields, the Tag-Index Scanner
does not return the concatenation of the pages' records: the grouping step's
out-of-range access is caught and the scanner returns the empty sequence. -/
theorem tag_scanner_short_arn_counterexample :
    get_tagged_resources (Except.ok [[demoShortRec]]) ≠
      ([[demoShortRec]] : List (List TaggedRecord)).flatten ∧
    get_tagged_resources (Except.ok [[demoShortRec]]) = [] := by
  exact ⟨by decide, rfl⟩

/-- Claim C8 (amended): for every paginated tag-index response all of whose
records' identifiers have at least three colon-delimited fields, the
Tag-Index Scanner returns the concatenation of all pages' records (so 3
pages of 100/100/37 records yield exactly 237), and groups them by the
service segment — the third colon-delimited field — of each identifier. -/
theorem tag_scanner_pagination (pages : List (List TaggedRecord))
    (h : ∀ r ∈ pages.flatten, 3 ≤ (splitColon r.resourceARN).length) :
    get_tagged_resources (.ok pages) = pages.flatten ∧
    (get_tagged_resources (.ok pages)).length = (pages.map List.length).sum ∧
    ∀ s, findGroup s (group_by_service (get_tagged_resources (.ok pages))) =
      if arnsFor s pages.flatten = [] then none else some (arnsFor s pages.flatten) := by
  have hall : pages.flatten.all (fun r => 3 ≤ (splitColon r.resourceARN).length) = true := by
    rw [List.all_eq_true]
    intro r hr
    exact decide_eq_true (h r hr)
  have heq : get_tagged_resources (.ok pages) = pages.flatten := by
    rw [get_tagged_resources, if_pos hall]
  refine ⟨heq, ?_, ?_⟩
  · rw [heq, List.length_flatten]
  · intro s
    rw [heq, group_by_service, findGroup_group_fold]
    simp [findGroup]

/-- Witness for C8: three pages of 100, 100 and 37 well-formed records
yield exactly 237 records. -/
theorem tag_scanner_pagination_witness :
    (∀ r ∈ ([List.replicate 100 demoRec, List.replicate 100 demoRec,
        List.replicate 37 demoRec] : List (List TaggedRecord)).flatten,
      3 ≤ (splitColon r.resourceARN).length) ∧
    (get_tagged_resources (.ok [List.replicate 100 demoRec, List.replicate 100 demoRec,
        List.replicate 37 demoRec])).length = 237 := by
  have h : ∀ r ∈ ([List.replicate 100 demoRec, List.replicate 100 demoRec,
      List.replicate 37 demoRec] : List (List TaggedRecord)).flatten,
      3 ≤ (splitColon r.resourceARN).length := by
    intro r hr
    have hrd : r = demoRec := by
      simp only [List.mem_flatten, List.mem_cons, List.mem_singleton, List.not_mem_nil,
        or_false] at hr
      rcases hr with ⟨l, hl, hrl⟩
      rcases hl with h1 | h1 | h1 <;> exact List.eq_of_mem_replicate (h1 ▸ hrl)
    rw [hrd]
    decide
  refine ⟨h, ?_⟩
  have := (tag_scanner_pagination _ h).2.1
  rw [this]
  decide

end CloudDiscovery

